import Mathlib

/-!
Verification of the beamium router (src/router.rs) against its
specification. The router's line-level processing is embedded over
`List Char`; filesystem effects are embedded as explicit outcome
environments, with fallible operations returning `Except`.
-/

set_option autoImplicit false

deriving instance DecidableEq for Except

namespace Beamium

/-- The opening brace character (written via its code point). -/
def lbrace : Char := Char.ofNat 123

/-- The closing brace character (written via its code point). -/
def rbrace : Char := Char.ofNat 125

/-- The character list of a string literal, the form the embedding works on. -/
def chars (s : String) : List Char := s.data

/-- Split a character list at every occurrence of a separator character,
keeping empty segments; a trailing separator yields a final empty
segment. -/
def splitCh (sep : Char) : List Char → List (List Char)
  | [] => [[]]
  | c :: cs =>
    if c = sep then [] :: splitCh sep cs
    else
      match splitCh sep cs with
      | [] => [[c]]
      | l :: ls => (c :: l) :: ls

/-- Split a character list at every newline character. -/
def splitNl : List Char → List (List Char) := splitCh ('\n')

/-- Embedding of Rust str::lines as used by route: split on newline, drop
the final empty segment produced by a trailing newline, and strip one
trailing carriage return from each line. -/
def rustLines (s : List Char) : List (List Char) :=
  let segs := splitNl s
  let segs2 := if segs.getLast? = some [] then segs.dropLast else segs
  segs2.map (fun l => if l.getLast? = some ('\r') then l.dropLast else l)

/-- Embedding of Rust str::trim: whitespace stripped from both ends
(ASCII whitespace stands in for char::is_whitespace). -/
def rustTrim (l : List Char) : List Char :=
  ((l.dropWhile Char.isWhitespace).reverse.dropWhile Char.isWhitespace).reverse

/-- Split at the first opening brace: the part before it and the remainder
after it, or none when the line holds no opening brace. -/
def splitBrace : List Char → Option (List Char × List Char)
  | [] => none
  | c :: cs =>
    if c = lbrace then some ([], cs)
    else
      match splitBrace cs with
      | none => none
      | some (a, b) => some (c :: a, b)

/-- Embedding of line.splitn(2, brace) viewed as its one or two items: the
first item always exists; the second exists only when a brace occurs. -/
def splitn2Brace (l : List Char) : List Char × Option (List Char) :=
  match splitBrace l with
  | none => (l, none)
  | some (a, b) => (a, some b)

/-- Embedding of the per-line body of the load loop in route
(src/router.rs lines 92-124): with an empty global-label string the line is
pushed verbatim; otherwise the line is split at the first opening brace,
dropped (with a warning) when no brace occurs, and otherwise rebuilt as
class, brace, labels, separator, remainder, where the separator is empty
iff the trimmed remainder starts with a closing brace. -/
def injectLine (labels : List Char) (line : List Char) : Option (List Char) :=
  if labels = [] then some line
  else
    match splitn2Brace line with
    | (_, none) => none
    | (cls, some plabels) =>
      let slabels :=
        labels ++ (if (rustTrim plabels).head? = some rbrace then [] else [(',')]) ++ plabels
      some (cls ++ lbrace :: slabels)

/-- All metric lines accumulated from one source file's content: each line
of str::lines handled by injectLine. -/
def routeLines (labels : List Char) (content : List Char) : List (List Char) :=
  (rustLines content).filterMap (injectLine labels)

/-- Embedding of str::split_whitespace: the maximal nonempty runs between
whitespace characters. -/
def splitWhite (l : List Char) : List (List Char) :=
  (List.splitOnP Char.isWhitespace l).filter (fun w => w ≠ [])

/-- The second whitespace-delimited token of a line, as extracted by the
write loop (line.split_whitespace().nth(1)). -/
def secondToken (l : List Char) : Option (List Char) := (splitWhite l).get? 1

/-- A sink: destination name plus the optional exclusion selector; the
regex engine is embedded as an abstract boolean predicate on the token. -/
structure Sink where
  name : String
  selector : Option (List Char → Bool)

/-- Whether the write loop of route skips this line for this sink
(src/router.rs lines 153-161): a selector is consulted on the second
whitespace token, and a match excludes the line. -/
def sinkExcludes (s : Sink) (line : List Char) : Bool :=
  match s.selector with
  | none => false
  | some sel =>
    match secondToken line with
    | none => false
    | some tok => sel tok

/-- The lines the write loop appends to one sink's pending file
(src/router.rs lines 148-165): empty lines are skipped for every sink, and
excluded lines are skipped for this sink. -/
def sinkLines (s : Sink) : List (List Char) → List (List Char)
  | [] => []
  | line :: rest =>
    if line.isEmpty then sinkLines s rest
    else if sinkExcludes s line then sinkLines s rest
    else line :: sinkLines s rest

/-- Embedding of Path::extension on a plain file name: the segment after
the last dot; none when there is no dot or the only dot is leading. -/
def extOf (name : String) : Option (List Char) :=
  let parts := splitCh ('.') name.data
  if parts.length ≤ 1 then none
  else if parts.length = 2 ∧ parts.head? = some [] then none
  else parts.getLast?

/-- One directory entry of source_dir: its file name together with the
outcome of reading it (content, or an I/O error rendered as a message). -/
structure Entry where
  name : String
  read : Except String (List Char)
deriving DecidableEq

/-- The router parameters the routing cycle consults: the per-iteration
file-count and cumulative byte-size ceilings. -/
structure Parameters where
  batch_count : Nat
  batch_size : Nat

/-- Byte length of a character list under UTF-8 (Rust String::len). -/
def utf8Len (l : List Char) : Nat := l.foldl (fun n c => n + c.utf8Size) 0

/-- Embedding of the load loop of route (src/router.rs lines 70-128): walk
the directory listing with its enumeration index, skip entries without the
metrics extension, stop at a metrics entry once the index exceeds
batch_count or the accumulated byte size exceeds batch_size, skip (with a
warning) files whose read fails, and otherwise accumulate the file and its
injected lines. An error item in the listing aborts the cycle. -/
def loadLoop (bc bs : Nat) (labels : List Char) :
    List (Except String Entry) → Nat → Nat → List (String × List Char) →
    List (List Char) → Except String (List (String × List Char) × List (List Char))
  | [], _, _, sel, ms => .ok (sel, ms)
  | e :: rest, i, size, sel, ms =>
    match e with
    | .error err => .error err
    | .ok en =>
      if extOf en.name ≠ some (chars ("metrics")) then loadLoop bc bs labels rest (i + 1) size sel ms
      else if i > bc ∨ size > bs then .ok (sel, ms)
      else
        match en.read with
        | .error _ => loadLoop bc bs labels rest (i + 1) size sel ms
        | .ok content =>
          loadLoop bc bs labels rest (i + 1) (size + utf8Len content)
            (sel ++ [(en.name, content)]) (ms ++ routeLines labels content)

/-- Outcomes of the filesystem operations route performs for one sink:
tmp-file create, the n-th raw write call, flush, and the commit rename. -/
structure SinkOps where
  create : Except String Unit
  write : Nat → Except String Unit
  flush : Except String Unit
  rename : Except String Unit

/-- The filesystem environment one iteration of route runs against: the
directory-listing outcome, the per-sink operation outcomes, the per-file
removal outcomes, and the timestamp taken before the rename loop. -/
structure IterEnv where
  listing : Except String (List (Except String Entry))
  ops : String → SinkOps
  removeFile : String → Except String Unit
  now : Int

/-- The tmp-file create loop (src/router.rs lines 140-144): returns the tmp
files actually created, also on failure part-way through. -/
def createAll (ops : String → SinkOps) : List Sink → Except String Unit × List String
  | [] => (.ok (), [])
  | s :: rest =>
    match (ops s.name).create with
    | .error e => (.error e, [])
    | .ok _ =>
      let (r, cs) := createAll ops rest
      (r, (s.name ++ (".tmp")) :: cs)

/-- One line written across all sinks (src/router.rs lines 153-164),
threading each sink's raw write-call counter; the line and its newline are
two write calls. -/
def writeLineSinks (ops : String → SinkOps) (line : List Char) :
    List (Sink × Nat) → Except String (List (Sink × Nat))
  | [] => .ok []
  | (s, n) :: rest =>
    if sinkExcludes s line then
      (writeLineSinks ops line rest).map (fun st => (s, n) :: st)
    else
      match (ops s.name).write n with
      | .error e => .error e
      | .ok _ =>
        match (ops s.name).write (n + 1) with
        | .error e => .error e
        | .ok _ => (writeLineSinks ops line rest).map (fun st => (s, n + 2) :: st)

/-- The write loop over all accumulated metric lines
(src/router.rs lines 148-165); empty lines are skipped before the sinks
are consulted. -/
def writeMetrics (ops : String → SinkOps) :
    List (List Char) → List (Sink × Nat) → Except String (List (Sink × Nat))
  | [], st => .ok st
  | line :: rest, st =>
    if line.isEmpty then writeMetrics ops rest st
    else
      match writeLineSinks ops line st with
      | .error e => .error e
      | .ok st2 => writeMetrics ops rest st2

/-- The flush loop over all sinks (src/router.rs lines 168-170). -/
def flushAll (ops : String → SinkOps) : List Sink → Except String Unit
  | [] => .ok ()
  | s :: rest =>
    match (ops s.name).flush with
    | .error e => .error e
    | .ok _ => flushAll ops rest

/-- The rename loop (src/router.rs lines 174-179): every sink's tmp file is
renamed to name-now.metrics; returns the renames actually performed (tmp
name, destination name), also on failure part-way through. -/
def renameAll (ops : String → SinkOps) (now : Int) :
    List Sink → Except String Unit × List (String × String)
  | [] => (.ok (), [])
  | s :: rest =>
    match (ops s.name).rename with
    | .error e => (.error e, [])
    | .ok _ =>
      let (r, rs) := renameAll ops now rest
      (r, (s.name ++ (".tmp"), s.name ++ ("-") ++ toString now ++ (".metrics")) :: rs)

/-- The delete loop (src/router.rs lines 182-185): remove every selected
source file; returns the files actually removed, also on failure
part-way through. -/
def removeAll (rm : String → Except String Unit) : List String → Except String Unit × List String
  | [] => (.ok (), [])
  | f :: rest =>
    match rm f with
    | .error e => (.error e, [])
    | .ok _ =>
      let (r, ds) := removeAll rm rest
      (r, f :: ds)

/-- What one iteration of route did: its result (ok true = files handled,
keep looping; ok false = nothing to do, stop), the tmp files created, the
renames performed, and the source files removed. -/
structure IterOut where
  result : Except String Bool
  created : List String
  renamed : List (String × String)
  deleted : List String
deriving DecidableEq

/-- One iteration of the inner loop of route (src/router.rs lines 64-186):
list the directory, load a capped batch, stop when no file was selected,
create the tmp sink files, write and flush the metric lines, rename every
tmp file to its committed name with the shared timestamp, and finally
delete the consumed source files. Every failing step aborts with its
error. -/
def routeIter (sinks : List Sink) (p : Parameters) (labels : List Char)
    (env : IterEnv) : IterOut :=
  match env.listing with
  | .error e => ⟨.error e, [], [], []⟩
  | .ok entries =>
    match loadLoop p.batch_count p.batch_size labels entries 0 0 [] [] with
    | .error e => ⟨.error e, [], [], []⟩
    | .ok (sel, ms) =>
      if sel.length = 0 then ⟨.ok false, [], [], []⟩
      else
        match createAll env.ops sinks with
        | (.error e, created) => ⟨.error e, created, [], []⟩
        | (.ok _, created) =>
          match writeMetrics env.ops ms (sinks.map (fun s => (s, 0))) with
          | .error e => ⟨.error e, created, [], []⟩
          | .ok _ =>
            match flushAll env.ops sinks with
            | .error e => ⟨.error e, created, [], []⟩
            | .ok _ =>
              match renameAll env.ops env.now sinks with
              | (.error e, renamed) => ⟨.error e, created, renamed, []⟩
              | (.ok _, renamed) =>
                let rem := removeAll env.removeFile (sel.map Prod.fst)
                ⟨rem.1.map (fun _ => true), created, renamed, rem.2⟩

/-- The inner iteration loop of route: run iterations against successive
environments until one errors or selects no files, accumulating the source
files actually removed across iterations. -/
def routeModel (sinks : List Sink) (p : Parameters) (labels : List Char) :
    List IterEnv → Except String Unit × List String
  | [] => (.ok (), [])
  | env :: rest =>
    let out := routeIter sinks p labels env
    match out.result with
    | .error e => (.error e, out.deleted)
    | .ok false => (.ok (), out.deleted)
    | .ok true =>
      let (r, ds) := routeModel sinks p labels rest
      (r, out.deleted ++ ds)

/-- Tmp files created during an iteration and never renamed away. -/
def tmpsLeft (out : IterOut) : List String :=
  out.created.filter (fun t => !(out.renamed.any (fun r => r.1 == t)))

/-- Embedding of the label flattening fold of router
(src/router.rs lines 29-33). -/
def flattenLabels (entries : List (String × String)) : String :=
  entries.foldl
    (fun acc kv => acc ++ (if acc = ("") then ("") else (",")) ++ kv.1 ++ ("=") ++ kv.2)
    ("")

/-- A std HashMap of labels as the router observes it: the entries in
insertion order, and the entries in the order iter() yields them. Rust
leaves the iteration order of std::collections::HashMap unspecified (with
RandomState it varies between processes), so the model only requires it to
be a permutation of the inserted entries. -/
structure RustHashMap where
  inserted : List (String × String)
  iterOrder : List (String × String)
  perm : iterOrder.Perm inserted

/-- The flattened label string the router computes once before its loop. -/
def routerLabels (m : RustHashMap) : String := flattenLabels m.iterOrder

/-- The router thread (src/router.rs lines 24-55): flatten the label map
once, then run route on every cycle with that same flattened string. -/
def routerModel (sinks : List Sink) (p : Parameters) (m : RustHashMap)
    (cycles : List (List IterEnv)) : List (Except String Unit × List String) :=
  let labels := routerLabels m
  cycles.map (fun envs => routeModel sinks p labels.data envs)

/-- Stated from the spec's words, for comparison with flattenLabels: the
comma-separated key=value rendering of the entries in the given order. -/
def joinEntries : List (String × String) → String
  | [] => ("")
  | [kv] => kv.1 ++ ("=") ++ kv.2
  | kv :: rest => kv.1 ++ ("=") ++ kv.2 ++ (",") ++ joinEntries rest

/-! ### Helper lemmas on the line-level definitions -/

lemma splitBrace_not_mem (l : List Char) (h : lbrace ∉ l) : splitBrace l = none := by
  induction l with
  | nil => rfl
  | cons c cs ih =>
    have hc : ¬ c = lbrace := fun hc => h (hc ▸ List.mem_cons_self c cs)
    have hcs : lbrace ∉ cs := fun hm => h (List.mem_cons_of_mem _ hm)
    simp [splitBrace, hc, ih hcs]

lemma splitBrace_append (cls rest : List Char) (h : lbrace ∉ cls) :
    splitBrace (cls ++ lbrace :: rest) = some (cls, rest) := by
  induction cls with
  | nil => simp [splitBrace]
  | cons c cs ih =>
    have hc : ¬ c = lbrace := fun hc => h (hc ▸ List.mem_cons_self c cs)
    have hcs : lbrace ∉ cs := fun hm => h (List.mem_cons_of_mem _ hm)
    simp [splitBrace, hc, ih hcs]

lemma splitn2Brace_append (cls rest : List Char) (h : lbrace ∉ cls) :
    splitn2Brace (cls ++ lbrace :: rest) = (cls, some rest) := by
  simp [splitn2Brace, splitBrace_append cls rest h]

lemma splitn2Brace_not_mem (l : List Char) (h : lbrace ∉ l) :
    splitn2Brace l = (l, none) := by
  simp [splitn2Brace, splitBrace_not_mem l h]

lemma head?_rustTrim (l : List Char) :
    (rustTrim l).head? = (l.dropWhile Char.isWhitespace).head? := by
  unfold rustTrim
  cases hm : l.dropWhile Char.isWhitespace with
  | nil => simp [hm]
  | cons c cs =>
    have hc : Char.isWhitespace c = false := by
      have hh := List.head?_dropWhile_not Char.isWhitespace l
      rw [hm] at hh
      simpa using hh
    rw [List.reverse_cons, List.dropWhile_append]
    split
    · simp [List.dropWhile_cons, hc]
    · simp

/-- The injection result for a well-formed line, phrased with the code's
two-sided trim. -/
lemma injectLine_append (labels cls rest : List Char) (hl : ¬ labels = [])
    (hc : lbrace ∉ cls) :
    injectLine labels (cls ++ lbrace :: rest)
      = some (cls ++ lbrace ::
          (labels ++
            (if (rustTrim rest).head? = some rbrace then [] else [(',')]) ++ rest)) := by
  simp [injectLine, hl, splitn2Brace_append cls rest hc]

/-- A line with no opening brace is dropped whenever labels are present. -/
lemma injectLine_no_brace (labels line : List Char) (hl : ¬ labels = [])
    (h : lbrace ∉ line) : injectLine labels line = none := by
  simp [injectLine, hl, splitn2Brace_not_mem line h]

/-- With no labels every line passes through unchanged. -/
lemma injectLine_nil (line : List Char) : injectLine [] line = some line := rfl

lemma filterMap_injectLine_nil (ls : List (List Char)) :
    ls.filterMap (injectLine []) = ls := by
  induction ls with
  | nil => rfl
  | cons l rest ih => simp [injectLine_nil, ih]

/-- The write loop's per-sink output is a filter of the metric lines. -/
lemma sinkLines_eq_filter (s : Sink) (ms : List (List Char)) :
    sinkLines s ms = ms.filter (fun l => !(l.isEmpty) && !(sinkExcludes s l)) := by
  induction ms with
  | nil => rfl
  | cons l rest ih =>
    by_cases he : l.isEmpty
    · simp [sinkLines, he, ih]
    · by_cases hx : sinkExcludes s l
      · simp [sinkLines, he, hx, ih]
      · simp [sinkLines, he, hx, ih]

lemma splitCh_not_mem (sep : Char) (l : List Char) (h : sep ∉ l) :
    splitCh sep l = [l] := by
  induction l with
  | nil => rfl
  | cons c cs ih =>
    have hc : ¬ c = sep := fun hc => h (hc ▸ List.mem_cons_self c cs)
    have hcs : sep ∉ cs := fun hm => h (List.mem_cons_of_mem _ hm)
    simp [splitCh, hc, ih hcs]

lemma splitCh_append (sep : Char) (a b : List Char) (h : sep ∉ a) :
    splitCh sep (a ++ sep :: b) = a :: splitCh sep b := by
  induction a with
  | nil => simp [splitCh]
  | cons c cs ih =>
    have hc : ¬ c = sep := fun hc => h (hc ▸ List.mem_cons_self c cs)
    have hcs : sep ∉ cs := fun hm => h (List.mem_cons_of_mem _ hm)
    simp only [List.cons_append, splitCh, if_neg hc, List.append_eq, ih hcs]

/-- A two-line file body splits into exactly its two lines. -/
lemma rustLines_two (a b : List Char) (ha : ('\n') ∉ a) (hb : ('\n') ∉ b)
    (hb0 : ¬ b = []) (har : ¬ a.getLast? = some ('\r'))
    (hbr : ¬ b.getLast? = some ('\r')) :
    rustLines (a ++ ('\n') :: b) = [a, b] := by
  unfold rustLines splitNl
  rw [splitCh_append _ _ _ ha, splitCh_not_mem _ _ hb]
  simp [hb0, har, hbr]

/-- A one-line file body (no terminator) is its own single line. -/
lemma rustLines_one (a : List Char) (ha : ('\n') ∉ a) (h0 : ¬ a = [])
    (har : ¬ a.getLast? = some ('\r')) : rustLines a = [a] := by
  unfold rustLines splitNl
  rw [splitCh_not_mem _ _ ha]
  simp [h0, har]

/-- Cumulative byte size of the selected files, as batch_size accumulates
it in the load loop. -/
def sumSizes (sel : List (String × List Char)) : Nat :=
  (sel.map (fun fc => utf8Len fc.2)).sum

/-- The load loop can select at most bc + 1 - i further files when its
enumeration index already stands at i. -/
lemma loadLoop_count (bc bs : Nat) (labels : List Char) :
    ∀ (entries : List (Except String Entry)) (i size : Nat)
      (sel : List (String × List Char)) (ms : List (List Char))
      (out : List (String × List Char) × List (List Char)),
      loadLoop bc bs labels entries i size sel ms = .ok out →
      out.1.length ≤ sel.length + (bc + 1 - i) := by
  intro entries
  induction entries with
  | nil =>
    intro i size sel ms out h
    simp [loadLoop] at h
    subst h
    simp
  | cons e rest ih =>
    intro i size sel ms out h
    cases e with
    | error err => simp [loadLoop] at h
    | ok en =>
      simp only [loadLoop] at h
      by_cases hext : ¬ extOf en.name = some (chars ("metrics"))
      · rw [if_pos hext] at h
        have hr := ih (i + 1) size sel ms out h
        omega
      · rw [if_neg hext] at h
        by_cases hguard : i > bc ∨ size > bs
        · rw [if_pos hguard] at h
          simp at h
          subst h
          simp
        · rw [if_neg hguard] at h
          have hi : ¬ i > bc := fun hx => hguard (Or.inl hx)
          cases hread : en.read with
          | error err =>
            rw [hread] at h
            have hr := ih (i + 1) size sel ms out h
            omega
          | ok content =>
            rw [hread] at h
            have hr := ih (i + 1) (size + utf8Len content)
              (sel ++ [(en.name, content)]) (ms ++ routeLines labels content) out h
            simp [List.length_append] at hr
            omega

/-- The load loop keeps the accumulated byte size within bs plus the size
of the last selected file. -/
lemma loadLoop_size (bc bs : Nat) (labels : List Char) :
    ∀ (entries : List (Except String Entry)) (i size : Nat)
      (sel : List (String × List Char)) (ms : List (List Char))
      (out : List (String × List Char) × List (List Char)),
      size = sumSizes sel →
      (∀ f, sel.getLast? = some f → sumSizes sel ≤ bs + utf8Len f.2) →
      loadLoop bc bs labels entries i size sel ms = .ok out →
      (∀ f, out.1.getLast? = some f → sumSizes out.1 ≤ bs + utf8Len f.2) := by
  intro entries
  induction entries with
  | nil =>
    intro i size sel ms out hsz hinv h
    simp [loadLoop] at h
    subst h
    exact hinv
  | cons e rest ih =>
    intro i size sel ms out hsz hinv h
    cases e with
    | error err => simp [loadLoop] at h
    | ok en =>
      simp only [loadLoop] at h
      by_cases hext : ¬ extOf en.name = some (chars ("metrics"))
      · rw [if_pos hext] at h
        exact ih (i + 1) size sel ms out hsz hinv h
      · rw [if_neg hext] at h
        by_cases hguard : i > bc ∨ size > bs
        · rw [if_pos hguard] at h
          simp at h
          subst h
          exact hinv
        · rw [if_neg hguard] at h
          have hs : ¬ size > bs := fun hx => hguard (Or.inr hx)
          cases hread : en.read with
          | error err =>
            rw [hread] at h
            exact ih (i + 1) size sel ms out hsz hinv h
          | ok content =>
            rw [hread] at h
            refine ih (i + 1) (size + utf8Len content)
              (sel ++ [(en.name, content)]) (ms ++ routeLines labels content) out ?_ ?_ h
            · simp [sumSizes, hsz]
            · intro f hf
              rw [List.getLast?_concat] at hf
              cases hf
              simp [sumSizes]
              have : sumSizes sel ≤ bs := by omega
              simp [sumSizes] at this
              omega

/-- Listing entries that are skipped (wrong extension, or a failing read
while both ceilings still hold) advance the enumeration index without
touching the accumulators. -/
lemma loadLoop_skip_pre (bc bs : Nat) (labels : List Char) :
    ∀ (pre rest : List (Except String Entry)) (i size : Nat)
      (sel : List (String × List Char)) (ms : List (List Char)),
      (∀ x ∈ pre, ∃ en, x = .ok en ∧
        (¬ extOf en.name = some (chars ("metrics")) ∨ ∃ err, en.read = .error err)) →
      i + pre.length ≤ bc + 1 → size ≤ bs →
      loadLoop bc bs labels (pre ++ rest) i size sel ms
        = loadLoop bc bs labels rest (i + pre.length) size sel ms := by
  intro pre
  induction pre with
  | nil => intro rest i size sel ms hall hidx hsz; simp
  | cons x pre' ih =>
    intro rest i size sel ms hall hidx hsz
    obtain ⟨en, hx, hskip⟩ := hall x (List.mem_cons_self x pre')
    subst hx
    have hall' : ∀ y ∈ pre', ∃ en, y = .ok en ∧
        (¬ extOf en.name = some (chars ("metrics")) ∨ ∃ err, en.read = .error err) :=
      fun y hy => hall y (List.mem_cons_of_mem _ hy)
    have hlen : (Except.ok en :: pre' : List (Except String Entry)).length = pre'.length + 1 := by
      simp
    cases hskip with
    | inl hext =>
      rw [List.cons_append]
      simp only [loadLoop, if_pos hext]
      rw [ih rest (i + 1) size sel ms hall' (by simp at hidx ⊢; omega) hsz]
      congr 1
      simp
      omega
    | inr hread =>
      obtain ⟨err, hread⟩ := hread
      rw [List.cons_append]
      by_cases hext : ¬ extOf en.name = some (chars ("metrics"))
      · simp only [loadLoop, if_pos hext]
        rw [ih rest (i + 1) size sel ms hall' (by simp at hidx ⊢; omega) hsz]
        congr 1
        simp
        omega
      · have hguard : ¬ (i > bc ∨ size > bs) := by
          intro hg
          cases hg with
          | inl hg => simp at hidx; omega
          | inr hg => omega
        simp only [loadLoop, if_neg hext, if_neg hguard, hread]
        rw [ih rest (i + 1) size sel ms hall' (by simp at hidx ⊢; omega) hsz]
        congr 1
        simp
        omega

/-! ### Helper lemmas on the effectful phases of route -/

lemma createAll_ok (ops : String → SinkOps) :
    ∀ (sinks : List Sink) (u : Unit) (cs : List String),
      createAll ops sinks = (.ok u, cs) →
      cs = sinks.map (fun s => s.name ++ (".tmp")) := by
  intro sinks
  induction sinks with
  | nil =>
    intro u cs h
    simp only [createAll, Prod.mk.injEq] at h
    simp [h.2.symm]
  | cons s rest ih =>
    intro u cs h
    rcases hrec : createAll ops rest with ⟨r, cs2⟩
    cases hc : (ops s.name).create with
    | error e => simp [createAll, hc] at h
    | ok v =>
      simp only [createAll, hc, hrec, Prod.mk.injEq] at h
      obtain ⟨hr, hcs⟩ := h
      subst hcs
      rw [List.map_cons]
      rw [ih u cs2 (by rw [hrec, hr])]

lemma renameAll_ok (ops : String → SinkOps) (now : Int) :
    ∀ (sinks : List Sink) (u : Unit) (rs : List (String × String)),
      renameAll ops now sinks = (.ok u, rs) →
      rs = sinks.map (fun s =>
        (s.name ++ (".tmp"), s.name ++ ("-") ++ toString now ++ (".metrics"))) := by
  intro sinks
  induction sinks with
  | nil =>
    intro u rs h
    simp only [renameAll, Prod.mk.injEq] at h
    simp [h.2.symm]
  | cons s rest ih =>
    intro u rs h
    rcases hrec : renameAll ops now rest with ⟨r, rs2⟩
    cases hc : (ops s.name).rename with
    | error e => simp [renameAll, hc] at h
    | ok v =>
      simp only [renameAll, hc, hrec, Prod.mk.injEq] at h
      obtain ⟨hr, hrs⟩ := h
      subst hrs
      rw [List.map_cons]
      rw [ih u rs2 (by rw [hrec, hr])]

lemma removeAll_ok (rm : String → Except String Unit) :
    ∀ (fs : List String) (u : Unit) (ds : List String),
      removeAll rm fs = (.ok u, ds) → ds = fs := by
  intro fs
  induction fs with
  | nil =>
    intro u ds h
    simp only [removeAll, Prod.mk.injEq] at h
    exact h.2.symm
  | cons f rest ih =>
    intro u ds h
    rcases hrec : removeAll rm rest with ⟨r, ds2⟩
    cases hc : rm f with
    | error e => simp [removeAll, hc] at h
    | ok v =>
      simp only [removeAll, hc, hrec, Prod.mk.injEq] at h
      obtain ⟨hr, hds⟩ := h
      subst hds
      rw [ih u ds2 (by rw [hrec, hr])]

/-- The files the delete loop removed before stopping form a prefix of the
files it was asked to remove. -/
lemma removeAll_performed_prefix (rm : String → Except String Unit) :
    ∀ (fs : List String) (r : Except String Unit) (ds : List String),
      removeAll rm fs = (r, ds) → ∃ tail, ds ++ tail = fs := by
  intro fs
  induction fs with
  | nil =>
    intro r ds h
    simp only [removeAll, Prod.mk.injEq] at h
    exact ⟨[], by simp [h.2.symm]⟩
  | cons f rest ih =>
    intro r ds h
    rcases hrec : removeAll rm rest with ⟨r2, ds2⟩
    cases hc : rm f with
    | error e =>
      simp only [removeAll, hc, Prod.mk.injEq] at h
      exact ⟨f :: rest, by simp [h.2.symm]⟩
    | ok v =>
      simp only [removeAll, hc, hrec, Prod.mk.injEq] at h
      obtain ⟨hr, hds⟩ := h
      obtain ⟨tail, htail⟩ := ih r2 ds2 hrec
      exact ⟨tail, by rw [← hds]; simp [htail]⟩

/-- Either an iteration deleted nothing, or its rename loop had completed
over every sink (with the shared timestamp) before the first delete. -/
lemma routeIter_deleted_cases (sinks : List Sink) (p : Parameters) (labels : List Char)
    (env : IterEnv) :
    (routeIter sinks p labels env).deleted = [] ∨
    (routeIter sinks p labels env).renamed
      = sinks.map (fun s => (s.name ++ (".tmp"),
          s.name ++ ("-") ++ toString env.now ++ (".metrics"))) := by
  unfold routeIter
  split
  · left; rfl
  · split
    · left; rfl
    · split
      · left; rfl
      · split
        · left; rfl
        · split
          · left; rfl
          · split
            · left; rfl
            · split
              · left; rfl
              · rename_i w renamed hra
                right
                exact renameAll_ok env.ops env.now sinks w renamed hra

/-- A fully successful iteration: the exact output state of routeIter. -/
lemma routeIter_ok_shape (sinks : List Sink) (p : Parameters) (labels : List Char)
    (env : IterEnv) (h : (routeIter sinks p labels env).result = .ok true) :
    ∃ entries sel ms,
      env.listing = .ok entries ∧
      loadLoop p.batch_count p.batch_size labels entries 0 0 [] [] = .ok (sel, ms) ∧
      ¬ sel = [] ∧
      routeIter sinks p labels env =
        ⟨.ok true,
         sinks.map (fun s => s.name ++ (".tmp")),
         sinks.map (fun s => (s.name ++ (".tmp"),
           s.name ++ ("-") ++ toString env.now ++ (".metrics"))),
         sel.map Prod.fst⟩ := by
  unfold routeIter at h
  split at h
  · simp at h
  · rename_i entries hls
    split at h
    · simp at h
    · rename_i selms sel ms hld
      split at h
      · simp at h
      · rename_i hsel
        split at h
        · simp at h
        · rename_i u created hca
          split at h
          · simp at h
          · rename_i st hw
            split at h
            · simp at h
            · rename_i v hf
              split at h
              · simp at h
              · rename_i w renamed hra
                rcases hrm : removeAll env.removeFile (sel.map Prod.fst) with ⟨dr, deleted⟩
                rw [hrm] at h
                cases dr with
                | error e => simp [Except.map] at h
                | ok x =>
                  have hcreated := createAll_ok env.ops sinks u created hca
                  have hrenamed := renameAll_ok env.ops env.now sinks w renamed hra
                  have hdeleted := removeAll_ok env.removeFile (sel.map Prod.fst) x deleted hrm
                  refine ⟨entries, sel, ms, hls, hld, (by simpa using hsel), ?_⟩
                  unfold routeIter
                  simp only [hls, hld, if_neg hsel, hca, hw, hf, hra, hrm]
                  rw [hcreated, hrenamed, hdeleted]
                  rfl

/-- Deletions made by a completed iteration stay in the cumulative
deletion list of the whole cycle, whatever later iterations do. -/
lemma routeModel_keeps_deleted (sinks : List Sink) (p : Parameters) (labels : List Char) :
    ∀ (pre rest : List IterEnv),
      (∀ en ∈ pre, (routeIter sinks p labels en).result = .ok true) →
      ∀ en ∈ pre, ∀ f ∈ (routeIter sinks p labels en).deleted,
        f ∈ (routeModel sinks p labels (pre ++ rest)).2 := by
  intro pre
  induction pre with
  | nil =>
    intro rest hall en hen
    simp at hen
  | cons e0 pre' ih =>
    intro rest hall en hen f hf
    have h0 : (routeIter sinks p labels e0).result = .ok true :=
      hall e0 (List.mem_cons_self e0 pre')
    rcases hM : routeModel sinks p labels (pre' ++ rest) with ⟨r, ds⟩
    have hmodel : (routeModel sinks p labels ((e0 :: pre') ++ rest)).2
        = (routeIter sinks p labels e0).deleted ++ ds := by
      simp [routeModel, h0, hM]
    rw [hmodel]
    rcases List.mem_cons.mp hen with he | he
    · subst he; exact List.mem_append_left _ hf
    · have hmem := ih rest (fun x hx => hall x (List.mem_cons_of_mem _ hx)) en he f hf
      rw [hM] at hmem
      exact List.mem_append_right _ hmem

/-! ### Helper lemmas on label flattening -/

lemma joinEntries_cons (kv : String × String) (rest : List (String × String))
    (h : ¬ rest = []) :
    joinEntries (kv :: rest) = kv.1 ++ ("=") ++ kv.2 ++ (",") ++ joinEntries rest := by
  cases rest with
  | nil => exact absurd rfl h
  | cons a l => rfl

lemma flattenLabels_go (l : List (String × String)) :
    ∀ acc : String, ¬ acc = ("") →
      List.foldl
        (fun acc kv => acc ++ (if acc = ("") then ("") else (",")) ++ kv.1 ++ ("=") ++ kv.2)
        acc l
        = if l.isEmpty then acc else acc ++ (",") ++ joinEntries l := by
  induction l with
  | nil => intro acc h; simp
  | cons kv rest ih =>
    intro acc h
    have hne : ¬ (acc ++ (",") ++ kv.1 ++ ("=") ++ kv.2) = ("") := by
      intro hx
      have hd := congrArg String.data hx
      simp [String.data_append] at hd
    simp only [List.foldl_cons, if_neg h]
    rw [ih _ hne]
    cases rest with
    | nil => simp [joinEntries, String.append_assoc]
    | cons b l2 =>
      rw [joinEntries_cons kv (b :: l2) (by simp)]
      simp [String.append_assoc]

lemma flattenLabels_eq_joinEntries (l : List (String × String)) :
    flattenLabels l = joinEntries l := by
  cases l with
  | nil => rfl
  | cons kv rest =>
    have hne : ¬ (kv.1 ++ ("=") ++ kv.2) = ("") := by
      intro hx
      have hd := congrArg String.data hx
      simp [String.data_append] at hd
    have h0 : flattenLabels (kv :: rest)
        = List.foldl
            (fun acc kv => acc ++ (if acc = ("") then ("") else (",")) ++ kv.1 ++ ("=") ++ kv.2)
            (kv.1 ++ ("=") ++ kv.2) rest := rfl
    rw [h0, flattenLabels_go rest _ hne]
    cases rest with
    | nil => simp [joinEntries]
    | cons b l2 =>
      rw [joinEntries_cons kv (b :: l2) (by simp)]
      simp [String.append_assoc]

/-! ### Concrete fixtures used by witnesses -/

/-- Sink operations that all succeed. -/
def okOps : String → SinkOps := fun _ => ⟨.ok (), fun _ => .ok (), .ok (), .ok ()⟩

/-- A directory entry whose read succeeds with the given content. -/
def okEntry (n c : String) : Except String Entry := .ok ⟨n, .ok (chars c)⟩

/-- Two sinks with no selector. -/
def twoSinks : List Sink := [⟨("s1"), none⟩, ⟨("s2"), none⟩]

/-- An environment with three readable source files and no failures. -/
def envThree : IterEnv :=
  ⟨.ok [okEntry ("a.metrics") ("foo\x7b\x7d 1"), okEntry ("b.metrics") ("foo\x7bx=2\x7d 2"),
        okEntry ("c.metrics") ("bar\x7b\x7d 3")],
   okOps, fun _ => .ok (), 100⟩

/-- An environment whose directory listing fails. -/
def envListErr : IterEnv := ⟨.error ("eio"), okOps, fun _ => .ok (), 0⟩

/-- An environment with one source file holding one well-formed line and
one brace-less line. -/
def envMalformed : IterEnv :=
  ⟨.ok [.ok ⟨("m.metrics"), .ok (chars ("foo\x7b\x7d 5\nbar5"))⟩],
   okOps, fun _ => .ok (), 100⟩

/-- Four eligible one-byte entries, for the batch-boundary witness. -/
def fourEntries : List (Except String Entry) :=
  [okEntry ("a.metrics") ("x"), okEntry ("b.metrics") ("y"),
   okEntry ("c.metrics") ("z"), okEntry ("d.metrics") ("w")]

/-! ### Claim theorems -/

/-- C1: within one iteration of route, source files are deleted only after
every sink's tmp file has been renamed to its committed name with the
shared timestamp; a directory-listing error aborts the iteration with that
error before anything happens; a tmp-create error, a write error, a flush
error and a rename error each abort the iteration with that error and with
no source file deleted; a source-file-removal error aborts with that error
after deleting only a prefix of the selected files, all renames being
already complete; and files deleted by earlier completed iterations of
the same cycle stay deleted whatever later iterations do. -/
theorem route_iteration_atomicity :
    (∀ (sinks : List Sink) (p : Parameters) (labels : List Char) (env : IterEnv),
       ¬ (routeIter sinks p labels env).deleted = [] →
       (routeIter sinks p labels env).renamed
         = sinks.map (fun s => (s.name ++ (".tmp"),
             s.name ++ ("-") ++ toString env.now ++ (".metrics"))))
    ∧ (∀ (sinks : List Sink) (p : Parameters) (labels : List Char) (env : IterEnv)
         (e : String), env.listing = .error e →
         routeIter sinks p labels env = ⟨.error e, [], [], []⟩)
    ∧ (∀ (sinks : List Sink) (p : Parameters) (labels : List Char) (env : IterEnv)
         (entries : List (Except String Entry)) (sel : List (String × List Char))
         (ms : List (List Char)) (e : String) (created : List String),
         env.listing = .ok entries →
         loadLoop p.batch_count p.batch_size labels entries 0 0 [] [] = .ok (sel, ms) →
         ¬ sel = [] → createAll env.ops sinks = (.error e, created) →
         routeIter sinks p labels env = ⟨.error e, created, [], []⟩)
    ∧ (∀ (sinks : List Sink) (p : Parameters) (labels : List Char) (env : IterEnv)
         (entries : List (Except String Entry)) (sel : List (String × List Char))
         (ms : List (List Char)) (u : Unit) (created : List String) (e : String),
         env.listing = .ok entries →
         loadLoop p.batch_count p.batch_size labels entries 0 0 [] [] = .ok (sel, ms) →
         ¬ sel = [] → createAll env.ops sinks = (.ok u, created) →
         writeMetrics env.ops ms (sinks.map (fun s => (s, 0))) = .error e →
         routeIter sinks p labels env = ⟨.error e, created, [], []⟩)
    ∧ (∀ (sinks : List Sink) (p : Parameters) (labels : List Char) (env : IterEnv)
         (entries : List (Except String Entry)) (sel : List (String × List Char))
         (ms : List (List Char)) (u : Unit) (created : List String)
         (st : List (Sink × Nat)) (e : String),
         env.listing = .ok entries →
         loadLoop p.batch_count p.batch_size labels entries 0 0 [] [] = .ok (sel, ms) →
         ¬ sel = [] → createAll env.ops sinks = (.ok u, created) →
         writeMetrics env.ops ms (sinks.map (fun s => (s, 0))) = .ok st →
         flushAll env.ops sinks = .error e →
         routeIter sinks p labels env = ⟨.error e, created, [], []⟩)
    ∧ (∀ (sinks : List Sink) (p : Parameters) (labels : List Char) (env : IterEnv)
         (entries : List (Except String Entry)) (sel : List (String × List Char))
         (ms : List (List Char)) (u : Unit) (created : List String)
         (st : List (Sink × Nat)) (v : Unit) (e : String)
         (renamed : List (String × String)),
         env.listing = .ok entries →
         loadLoop p.batch_count p.batch_size labels entries 0 0 [] [] = .ok (sel, ms) →
         ¬ sel = [] → createAll env.ops sinks = (.ok u, created) →
         writeMetrics env.ops ms (sinks.map (fun s => (s, 0))) = .ok st →
         flushAll env.ops sinks = .ok v →
         renameAll env.ops env.now sinks = (.error e, renamed) →
         routeIter sinks p labels env = ⟨.error e, created, renamed, []⟩)
    ∧ (∀ (sinks : List Sink) (p : Parameters) (labels : List Char) (env : IterEnv)
         (entries : List (Except String Entry)) (sel : List (String × List Char))
         (ms : List (List Char)) (u : Unit) (created : List String)
         (st : List (Sink × Nat)) (v : Unit) (w : Unit)
         (renamed : List (String × String)) (e : String) (ds : List String),
         env.listing = .ok entries →
         loadLoop p.batch_count p.batch_size labels entries 0 0 [] [] = .ok (sel, ms) →
         ¬ sel = [] → createAll env.ops sinks = (.ok u, created) →
         writeMetrics env.ops ms (sinks.map (fun s => (s, 0))) = .ok st →
         flushAll env.ops sinks = .ok v →
         renameAll env.ops env.now sinks = (.ok w, renamed) →
         removeAll env.removeFile (sel.map Prod.fst) = (.error e, ds) →
         routeIter sinks p labels env = ⟨.error e, created, renamed, ds⟩
         ∧ ∃ tail, ds ++ tail = sel.map Prod.fst)
    ∧ (∀ (sinks : List Sink) (p : Parameters) (labels : List Char)
         (pre rest : List IterEnv),
         (∀ en ∈ pre, (routeIter sinks p labels en).result = .ok true) →
         ∀ en ∈ pre, ∀ f ∈ (routeIter sinks p labels en).deleted,
           f ∈ (routeModel sinks p labels (pre ++ rest)).2) := by
  refine ⟨?_, ?_, ?_, ?_, ?_, ?_, ?_,
    fun sinks p labels => routeModel_keeps_deleted sinks p labels⟩
  · intro sinks p labels env h
    rcases routeIter_deleted_cases sinks p labels env with h0 | h0
    · exact absurd h0 h
    · exact h0
  · intro sinks p labels env e hls
    unfold routeIter
    rw [hls]
  · intro sinks p labels env entries sel ms e created hls hld hsel hca
    have hlen : ¬ sel.length = 0 := by simpa [List.length_eq_zero] using hsel
    unfold routeIter
    simp only [hls, hld, if_neg hlen, hca]
  · intro sinks p labels env entries sel ms u created e hls hld hsel hca hw
    have hlen : ¬ sel.length = 0 := by simpa [List.length_eq_zero] using hsel
    unfold routeIter
    simp only [hls, hld, if_neg hlen, hca, hw]
  · intro sinks p labels env entries sel ms u created st e hls hld hsel hca hw hf
    have hlen : ¬ sel.length = 0 := by simpa [List.length_eq_zero] using hsel
    unfold routeIter
    simp only [hls, hld, if_neg hlen, hca, hw, hf]
  · intro sinks p labels env entries sel ms u created st v e renamed hls hld hsel hca hw hf hra
    have hlen : ¬ sel.length = 0 := by simpa [List.length_eq_zero] using hsel
    unfold routeIter
    simp only [hls, hld, if_neg hlen, hca, hw, hf, hra]
  · intro sinks p labels env entries sel ms u created st v w renamed e ds
      hls hld hsel hca hw hf hra hrm
    have hlen : ¬ sel.length = 0 := by simpa [List.length_eq_zero] using hsel
    constructor
    · unfold routeIter
      simp only [hls, hld, if_neg hlen, hca, hw, hf, hra, hrm]
      rfl
    · exact removeAll_performed_prefix env.removeFile (sel.map Prod.fst) (.error e) ds hrm

/-- Witness for C1: a listing error aborts a concrete iteration untouched,
and a concrete iteration that deleted its files had renamed both sinks
first. -/
theorem route_iteration_atomicity_witness :
    routeIter twoSinks ⟨10, 1000⟩ (chars ("env=prod")) envListErr
      = ⟨.error ("eio"), [], [], []⟩
    ∧ (routeIter twoSinks ⟨10, 1000⟩ (chars ("env=prod")) envThree).renamed
      = [(("s1.tmp"), ("s1-100.metrics")), (("s2.tmp"), ("s2-100.metrics"))] := by
  constructor
  · exact route_iteration_atomicity.2.1 twoSinks ⟨10, 1000⟩ (chars ("env=prod"))
      envListErr ("eio") rfl
  · have h := route_iteration_atomicity.1 twoSinks ⟨10, 1000⟩ (chars ("env=prod"))
      envThree (by decide)
    rw [h]
    decide

/-- C2: for a line class-brace-remainder with non-empty flattened
GlobalLabels, the emitted line is the class, the brace, the labels, then
the original remainder, with no separator iff the remainder starts (after
leading whitespace) with a closing brace and a comma otherwise; the labels
appear exactly once, as the single copy in the stated output shape. -/
theorem label_injection_separator (labels cls rest : List Char)
    (hl : ¬ labels = []) (hc : lbrace ∉ cls) :
    injectLine labels (cls ++ lbrace :: rest)
      = some (cls ++ lbrace ::
          (labels ++
            (if (rest.dropWhile Char.isWhitespace).head? = some rbrace then []
             else [(',')]) ++ rest)) := by
  rw [injectLine_append labels cls rest hl hc, head?_rustTrim]

/-- Witness for C2 on the spec's two label-injection examples. -/
theorem label_injection_separator_witness :
    injectLine (chars ("env=prod")) (chars ("foo\x7b\x7d 5"))
        = some (chars ("foo\x7benv=prod\x7d 5"))
    ∧ injectLine (chars ("env=prod")) (chars ("foo\x7bbar=1\x7d 5"))
        = some (chars ("foo\x7benv=prod,bar=1\x7d 5")) := by
  have h1 := label_injection_separator (chars ("env=prod")) (chars ("foo"))
    (chars ("\x7d 5")) (by decide) (by decide)
  have h2 := label_injection_separator (chars ("env=prod")) (chars ("foo"))
    (chars ("bar=1\x7d 5")) (by decide) (by decide)
  constructor
  · rw [show chars ("foo\x7b\x7d 5") = chars ("foo") ++ lbrace :: chars ("\x7d 5") from
      by decide, h1]
    decide
  · rw [show chars ("foo\x7bbar=1\x7d 5")
        = chars ("foo") ++ lbrace :: chars ("bar=1\x7d 5") from by decide, h2]
    decide

/-- C3: one iteration's batch exceeds neither ceiling by more than one
file: at most batch_count + 1 files are selected, and the cumulative byte
size stays within batch_size plus the byte size of the last selected
file; in particular with batch_count = N and N + 2 eligible readable
files, at most N + 1 are selected. -/
theorem batch_ceiling_overshoot (bc bs : Nat) (labels : List Char)
    (entries : List (Except String Entry)) (sel : List (String × List Char))
    (ms : List (List Char))
    (h : loadLoop bc bs labels entries 0 0 [] [] = .ok (sel, ms)) :
    sel.length ≤ bc + 1
    ∧ (∀ f, sel.getLast? = some f → sumSizes sel ≤ bs + utf8Len f.2) := by
  constructor
  · have hr := loadLoop_count bc bs labels entries 0 0 [] [] (sel, ms) h
    simpa using hr
  · exact loadLoop_size bc bs labels entries 0 0 [] [] (sel, ms) rfl
      (by intro f hf; simp at hf) h

/-- Witness for C3: batch_count = 1 with four eligible files selects
exactly two files, within the bound. -/
theorem batch_ceiling_overshoot_witness :
    loadLoop 1 1000 [] fourEntries 0 0 [] []
      = .ok ([(("a.metrics"), chars ("x")), (("b.metrics"), chars ("y"))],
             [chars ("x"), chars ("y")])
    ∧ ([(("a.metrics"), chars ("x")), (("b.metrics"), chars ("y"))] :
        List (String × List Char)).length ≤ 1 + 1 := by
  have h : loadLoop 1 1000 [] fourEntries 0 0 [] []
      = .ok ([(("a.metrics"), chars ("x")), (("b.metrics"), chars ("y"))],
             [chars ("x"), chars ("y")]) := by decide
  exact ⟨h, (batch_ceiling_overshoot 1 1000 [] fourEntries _ _ h).1⟩

/-- C4: a non-empty accumulated line always reaches a sink with no
selector, and reaches a sink with a selector iff the line's second
whitespace-delimited token does not match the selector: a match excludes
the line (blacklist, not whitelist). -/
theorem selector_blacklist (s : Sink) (ms : List (List Char)) (line : List Char)
    (hne : ¬ line = []) (hmem : line ∈ ms) :
    (s.selector = none → line ∈ sinkLines s ms)
    ∧ (∀ sel, s.selector = some sel →
        (line ∈ sinkLines s ms ↔
          ¬ ∃ tok, secondToken line = some tok ∧ sel tok = true)) := by
  have hmf : line ∈ sinkLines s ms ↔
      (line ∈ ms ∧ (!(line.isEmpty) && !(sinkExcludes s line)) = true) := by
    rw [sinkLines_eq_filter]
    exact List.mem_filter
  have hempty : line.isEmpty = false := by
    cases line with
    | nil => exact absurd rfl hne
    | cons c cs => rfl
  constructor
  · intro hnone
    rw [hmf]
    refine ⟨hmem, ?_⟩
    simp [hempty, sinkExcludes, hnone]
  · intro sel hsel
    rw [hmf]
    cases ht : secondToken line with
    | none => simp [hempty, sinkExcludes, hsel, ht, hmem]
    | some tok => simp [hempty, sinkExcludes, hsel, ht, hmem]

/-- Witness for C4: a selector matching token foo drops exactly the line
whose second token is foo and keeps the other line. -/
theorem selector_blacklist_witness :
    (chars ("a bar 1")) ∈ sinkLines ⟨("s"), some (fun t => t == chars ("foo"))⟩
        [chars ("a foo 1"), chars ("a bar 1")]
    ∧ ¬ (chars ("a foo 1")) ∈ sinkLines ⟨("s"), some (fun t => t == chars ("foo"))⟩
        [chars ("a foo 1"), chars ("a bar 1")] := by
  have h1 := selector_blacklist ⟨("s"), some (fun t => t == chars ("foo"))⟩
    [chars ("a foo 1"), chars ("a bar 1")] (chars ("a bar 1")) (by decide) (by decide)
  have h2 := selector_blacklist ⟨("s"), some (fun t => t == chars ("foo"))⟩
    [chars ("a foo 1"), chars ("a bar 1")] (chars ("a foo 1")) (by decide) (by decide)
  constructor
  · refine (h1.2 _ rfl).mpr ?_
    intro hex
    obtain ⟨tok, ht, hm⟩ := hex
    have hst : secondToken (chars ("a bar 1")) = some (chars ("bar")) := by decide
    rw [hst] at ht
    injection ht with ht2
    subst ht2
    exact absurd hm (by decide)
  · intro hmem
    have hx := (h2.2 _ rfl).mp hmem
    exact hx ⟨chars ("foo"), by decide, by decide⟩

/-- A label map state the Rust standard library may produce: two inserted
entries yielded by iter() in the opposite order. -/
def hashIterDemo : RustHashMap :=
  ⟨[(("a"), ("1")), (("b"), ("2"))], [(("b"), ("2")), (("a"), ("1"))], by decide⟩

/-- C5 counterexample: the flattened string follows the map's iteration
order, which Rust does not tie to insertion order; on an admissible
iteration state the two renderings differ. -/
theorem labels_insertion_order_cex :
    ¬ routerLabels hashIterDemo = joinEntries hashIterDemo.inserted := by
  decide

/-- C5 amended: the label map is flattened exactly once, before the
routing loop, into the comma-separated key=value rendering of its entries
in iteration order (a permutation of the inserted entries, not necessarily
insertion order), and that same flattened string is handed to route for
every cycle. -/
theorem labels_flatten_once (m : RustHashMap) :
    routerLabels m = joinEntries m.iterOrder
    ∧ m.iterOrder.Perm m.inserted
    ∧ ∀ (sinks : List Sink) (p : Parameters) (cycles : List (List IterEnv)),
        routerModel sinks p m cycles
          = cycles.map (fun envs => routeModel sinks p (routerLabels m).data envs) :=
  ⟨flattenLabels_eq_joinEntries m.iterOrder, m.perm, fun _ _ _ => rfl⟩

/-- The last element of a list extended on the left is unchanged. -/
lemma getLast?_append_cons (cls : List Char) (c : Char) (rest : List Char) :
    (cls ++ c :: rest).getLast? = (c :: rest).getLast? := by
  rw [List.getLast?_append]
  cases hg : (c :: rest).getLast? with
  | none => rw [List.getLast?_eq_none_iff] at hg; exact absurd hg (by simp)
  | some d => rfl

/-- C6 counterexample to the claim as stated: with empty GlobalLabels the
brace-less line is not dropped, so the two-line file yields two output
lines for a sink, not one. -/
theorem malformed_drop_cex :
    ¬ ((sinkLines ⟨("s"), none⟩
        (routeLines [] (chars ("foo\x7b\x7d 5\nbar5")))).length = 1) := by
  decide

/-- C6 amended: when the flattened GlobalLabels string is non-empty, a
line without an opening brace is dropped without failing anything; a file
holding one well-formed line and one brace-less line accumulates exactly
one metric line, which every non-excluding sink receives as its single
output line; and such a file is still selected, hence deleted by a fully
successful iteration. -/
theorem malformed_drop_nonempty_labels :
    (∀ labels line, ¬ labels = [] → lbrace ∉ line → injectLine labels line = none)
    ∧ (∀ labels cls rest bad, ¬ labels = [] → lbrace ∉ cls → ('\n') ∉ cls →
        ('\n') ∉ rest → ¬ rest.getLast? = some ('\r') →
        lbrace ∉ bad → ('\n') ∉ bad → ¬ bad = [] → ¬ bad.getLast? = some ('\r') →
        routeLines labels ((cls ++ lbrace :: rest) ++ ('\n') :: bad)
          = [cls ++ lbrace ::
              (labels ++
                (if (rustTrim rest).head? = some rbrace then [] else [(',')]) ++ rest)])
    ∧ (∀ (s : Sink) (l : List Char), ¬ l = [] → sinkExcludes s l = false →
        sinkLines s [l] = [l])
    ∧ (∀ (sinks : List Sink) (p : Parameters) (labels : List Char) (env : IterEnv)
         (name : String) (content : List Char),
        env.listing = .ok [.ok ⟨name, .ok content⟩] →
        extOf name = some (chars ("metrics")) →
        (routeIter sinks p labels env).result = .ok true →
        (routeIter sinks p labels env).deleted = [name]) := by
  refine ⟨injectLine_no_brace, ?_, ?_, ?_⟩
  · intro labels cls rest bad hl hc hnc hnr har hbb hnb hb0 hbr
    have ha : ('\n') ∉ (cls ++ lbrace :: rest) := by
      intro hm
      rcases List.mem_append.mp hm with hm | hm
      · exact hnc hm
      · rcases List.mem_cons.mp hm with hm | hm
        · exact absurd hm (by decide)
        · exact hnr hm
    have hal : ¬ (cls ++ lbrace :: rest).getLast? = some ('\r') := by
      rw [getLast?_append_cons]
      cases rest with
      | nil => decide
      | cons b bs => rw [List.getLast?_cons_cons]; exact har
    unfold routeLines
    rw [rustLines_two _ _ ha hnb hb0 hal hbr]
    have hga := injectLine_append labels cls rest hl hc
    have hgb := injectLine_no_brace labels bad hl hbb
    simp [List.filterMap_cons, hga, hgb]
  · intro s l hne hx
    have hempty : l.isEmpty = false := by
      cases l with
      | nil => exact absurd rfl hne
      | cons c cs => rfl
    simp [sinkLines, hempty, hx]
  · intro sinks p labels env name content hls hext hok
    obtain ⟨entries, sel, ms, hls2, hld, hsel, hR⟩ :=
      routeIter_ok_shape sinks p labels env hok
    rw [hls] at hls2
    injection hls2 with hent
    subst hent
    have hguard : ¬ ((0 : Nat) > p.batch_count ∨ (0 : Nat) > p.batch_size) := by omega
    have hc2 : ¬ extOf name ≠ some (chars ("metrics")) := by simp [hext]
    have hcomp : loadLoop p.batch_count p.batch_size labels
        [Except.ok ⟨name, .ok content⟩] 0 0 [] []
        = .ok ([(name, content)], routeLines labels content) := by
      simp [loadLoop, hc2, hguard]
    rw [hcomp] at hld
    injection hld with hpair
    rw [hR]
    have hsel2 : sel = [(name, content)] := by
      have := congrArg Prod.fst hpair
      simpa using this.symm
    rw [hsel2]
    rfl

/-- Witness for the amended C6: the concrete two-line file yields one line
and its source file is deleted by a successful concrete iteration. -/
theorem malformed_drop_witness :
    routeLines (chars ("env=prod")) (chars ("foo\x7b\x7d 5\nbar5"))
      = [chars ("foo\x7benv=prod\x7d 5")]
    ∧ (routeIter twoSinks ⟨10, 1000⟩ (chars ("env=prod")) envMalformed).deleted
      = [("m.metrics")] := by
  constructor
  · have h := malformed_drop_nonempty_labels.2.1 (chars ("env=prod")) (chars ("foo"))
      (chars ("\x7d 5")) (chars ("bar5")) (by decide) (by decide) (by decide)
      (by decide) (by decide) (by decide) (by decide) (by decide) (by decide)
    rw [show chars ("foo\x7b\x7d 5\nbar5")
        = (chars ("foo") ++ lbrace :: chars ("\x7d 5")) ++ ('\n') :: chars ("bar5") from
      by decide, h]
    decide
  · exact malformed_drop_nonempty_labels.2.2.2 twoSinks ⟨10, 1000⟩ (chars ("env=prod"))
      envMalformed ("m.metrics") (chars ("foo\x7b\x7d 5\nbar5")) rfl (by decide) (by decide)

/-- C7: a metrics entry whose read fails, met while both ceilings still
hold, is skipped with only the index advanced: it is neither selected (so
it cannot be deleted) nor does it contribute lines, and the iteration
continues with the remaining entries instead of aborting. -/
theorem read_failure_skip (bc bs : Nat) (labels : List Char) (name err : String)
    (rest : List (Except String Entry)) (i size : Nat)
    (sel : List (String × List Char)) (ms : List (List Char))
    (hext : extOf name = some (chars ("metrics")))
    (hi : i ≤ bc) (hs : size ≤ bs) :
    loadLoop bc bs labels (.ok ⟨name, .error err⟩ :: rest) i size sel ms
      = loadLoop bc bs labels rest (i + 1) size sel ms := by
  have hguard : ¬ (i > bc ∨ size > bs) := by omega
  have hc2 : ¬ extOf name ≠ some (chars ("metrics")) := by simp [hext]
  simp [loadLoop, hc2, hguard]

/-- Witness for C7 at a concrete unreadable file. -/
theorem read_failure_skip_witness :
    loadLoop 5 100 [] [.ok ⟨("f.metrics"), .error ("eio")⟩] 0 0 [] []
      = loadLoop 5 100 [] [] (0 + 1) 0 [] [] :=
  read_failure_skip 5 100 [] ("f.metrics") ("eio") [] 0 0 [] []
    (by decide) (by decide) (by decide)

/-- C8: after a fully successful iteration every sink's tmp file has been
renamed to its committed name carrying the one shared timestamp, no
created tmp file is left unrenamed, and exactly the selected source files
have been deleted. -/
theorem commit_success_state (sinks : List Sink) (p : Parameters) (labels : List Char)
    (env : IterEnv) (h : (routeIter sinks p labels env).result = .ok true) :
    (routeIter sinks p labels env).renamed
      = sinks.map (fun s => (s.name ++ (".tmp"),
          s.name ++ ("-") ++ toString env.now ++ (".metrics")))
    ∧ tmpsLeft (routeIter sinks p labels env) = []
    ∧ ∃ entries sel ms,
        env.listing = .ok entries
        ∧ loadLoop p.batch_count p.batch_size labels entries 0 0 [] [] = .ok (sel, ms)
        ∧ ¬ sel = []
        ∧ (routeIter sinks p labels env).deleted = sel.map Prod.fst := by
  obtain ⟨entries, sel, ms, hls, hld, hsel, hR⟩ := routeIter_ok_shape sinks p labels env h
  rw [hR]
  refine ⟨rfl, ?_, entries, sel, ms, hls, hld, hsel, rfl⟩
  unfold tmpsLeft
  rw [List.filter_eq_nil_iff]
  intro t ht
  rw [List.mem_map] at ht
  obtain ⟨s, hs, hts⟩ := ht
  subst hts
  have hany : ((sinks.map (fun s => (s.name ++ (".tmp"),
      s.name ++ ("-") ++ toString env.now ++ (".metrics")))).any
      (fun r => r.1 == s.name ++ (".tmp"))) = true := by
    rw [List.any_eq_true]
    refine ⟨(s.name ++ (".tmp"), s.name ++ ("-") ++ toString env.now ++ (".metrics")),
            List.mem_map_of_mem _ hs, ?_⟩
    simp
  simp [hany]

/-- Witness for C8: two sinks and three source files yield exactly two
committed files with the shared timestamp, no tmp file, and all three
source files deleted. -/
theorem commit_success_state_witness :
    (routeIter twoSinks ⟨10, 1000⟩ (chars ("env=prod")) envThree).result = .ok true
    ∧ (routeIter twoSinks ⟨10, 1000⟩ (chars ("env=prod")) envThree).renamed
      = [(("s1.tmp"), ("s1-100.metrics")), (("s2.tmp"), ("s2-100.metrics"))]
    ∧ tmpsLeft (routeIter twoSinks ⟨10, 1000⟩ (chars ("env=prod")) envThree) = []
    ∧ (routeIter twoSinks ⟨10, 1000⟩ (chars ("env=prod")) envThree).deleted
      = [("a.metrics"), ("b.metrics"), ("c.metrics")] := by
  have h : (routeIter twoSinks ⟨10, 1000⟩ (chars ("env=prod")) envThree).result
      = .ok true := by decide
  have hc := commit_success_state twoSinks ⟨10, 1000⟩ (chars ("env=prod")) envThree h
  refine ⟨h, ?_, hc.2.1, by decide⟩
  rw [hc.1]
  decide

/-- C9: with the flattened GlobalLabels string empty, every line of every
file is accumulated verbatim, brace-less lines included, with no drop; a
dropped line forces non-empty labels; and empty lines are withheld from
sinks only by the write loop's filter. -/
theorem empty_labels_verbatim :
    (∀ content, routeLines [] content = rustLines content)
    ∧ (∀ labels line, injectLine labels line = none → ¬ labels = [])
    ∧ (∀ (s : Sink) (ms : List (List Char)),
        sinkLines s ms = ms.filter (fun l => !(l.isEmpty) && !(sinkExcludes s l))) := by
  refine ⟨?_, ?_, sinkLines_eq_filter⟩
  · intro content
    unfold routeLines
    exact filterMap_injectLine_nil (rustLines content)
  · intro labels line h hl
    subst hl
    rw [injectLine_nil] at h
    exact Option.noConfusion h

/-- Witness for C9: a concrete dropped line forces non-empty labels. -/
theorem empty_labels_verbatim_witness :
    injectLine (chars ("a=1")) (chars ("x 1")) = none ∧ ¬ (chars ("a=1")) = [] :=
  ⟨by decide, empty_labels_verbatim.2.1 (chars ("a=1")) (chars ("x 1")) (by decide)⟩

/-- C10: the file-count ceiling is compared against the listing index, not
the selected count: entries without the metrics extension, and failing
reads, advance the index, so k of them (1 ≤ k ≤ batch_count + 1)
enumerated ahead of the eligible files leave room for at most
batch_count + 1 - k selections — strictly fewer than batch_count + 1. -/
theorem count_ceiling_listing_index (bc bs : Nat) (labels : List Char)
    (pre rest : List (Except String Entry)) (sel : List (String × List Char))
    (ms : List (List Char))
    (hpre : ∀ x ∈ pre, ∃ en, x = .ok en ∧
      (¬ extOf en.name = some (chars ("metrics")) ∨ ∃ err, en.read = .error err))
    (h1 : 1 ≤ pre.length) (h2 : pre.length ≤ bc + 1)
    (h : loadLoop bc bs labels (pre ++ rest) 0 0 [] [] = .ok (sel, ms)) :
    sel.length + pre.length ≤ bc + 1 ∧ sel.length < bc + 1 := by
  rw [loadLoop_skip_pre bc bs labels pre rest 0 0 [] [] hpre (by omega) (by omega)] at h
  have hr := loadLoop_count bc bs labels rest (0 + pre.length) 0 [] [] (sel, ms) h
  simp at hr
  omega

/-- One non-metrics entry, enumerated first. -/
def preIneligible : List (Except String Entry) := [okEntry ("skip.txt") ("")]

/-- Witness for C10: with batch_count = 1 and a non-metrics entry first,
only one eligible file is selected instead of two. -/
theorem count_ceiling_listing_index_witness :
    loadLoop 1 1000 [] (preIneligible ++ fourEntries) 0 0 [] []
      = .ok ([(("a.metrics"), chars ("x"))], [chars ("x")])
    ∧ ([(("a.metrics"), chars ("x"))] : List (String × List Char)).length < 1 + 1 := by
  have hpre : ∀ x ∈ preIneligible, ∃ en, x = .ok en ∧
      (¬ extOf en.name = some (chars ("metrics")) ∨ ∃ err, en.read = .error err) := by
    intro x hx
    simp only [preIneligible, List.mem_singleton] at hx
    subst hx
    exact ⟨⟨("skip.txt"), .ok (chars (""))⟩, rfl, Or.inl (by decide)⟩
  have h : loadLoop 1 1000 [] (preIneligible ++ fourEntries) 0 0 [] []
      = .ok ([(("a.metrics"), chars ("x"))], [chars ("x")]) := by decide
  exact ⟨h, (count_ceiling_listing_index 1 1000 [] preIneligible fourEntries _ _
    hpre (by decide) (by decide) h).2⟩

end Beamium
